import Mathlib

/-!
Verification of the search-request translation engine of arturo-stac-api
(files stac_api/models/schemas.py and stac_api/models/database.py), as a
shallow embedding in Lean.  Python sets become Finset String, Python dicts
become insertion-ordered association lists, and fallible Python code
(exceptions) returns Option or Except.
-/

namespace StacApi

/-- A JSON-ish attribute value, as carried in query literals and in the per
item attribute bag.  A timestamp obtained by datetime.strptime from a string
is tagged with the original string (database.py line 92). -/
inductive Value where
  | vstr (s : String)
  | vnum (q : ℚ)
  | vbool (b : Bool)
  | vdt (s : String)
  deriving DecidableEq, Repr

/-- Operator enum from schemas.py lines 31-51: the closed set of supported
comparison operators. -/
inductive Operator where
  | eq | ne | lt | le | gt | ge
  deriving DecidableEq, Repr

/-- The wire token of each operator (the AutoValueEnum value). -/
def Operator.value : Operator → String
  | .eq => "eq"
  | .ne => "ne"
  | .lt => "lt"
  | .le => "le"
  | .gt => "gt"
  | .ge => "ge"

/-- Pydantic coercion of a wire token into the Operator enum:
lookup by enum value, failing on anything outside the closed set. -/
def Operator.parse (tok : String) : Option Operator :=
  if tok = "eq" then some .eq
  else if tok = "ne" then some .ne
  else if tok = "lt" then some .lt
  else if tok = "le" then some .le
  else if tok = "gt" then some .gt
  else if tok = "ge" then some .ge
  else none

/-- Queryables enum from schemas.py lines 54-71: the static registry of
queryable field names.  Members with an explicit string carry a namespaced
wire value. -/
inductive Queryables where
  | orientation | gsd | epsg | height | width | minzoom | maxzoom | dtype
  deriving DecidableEq, Repr

/-- The wire value of each Queryables member (schemas.py lines 64-71). -/
def Queryables.value : Queryables → String
  | .orientation => "orientation"
  | .gsd => "gsd"
  | .epsg => "proj:epsg"
  | .height => "height"
  | .width => "width"
  | .minzoom => "cog:minzoom"
  | .maxzoom => "cog:maxzoom"
  | .dtype => "cog:dtype"

/-- Pydantic coercion of a wire field name into the Queryables enum:
lookup by enum value, failing on any unregistered name. -/
def Queryables.parse (f : String) : Option Queryables :=
  if f = "orientation" then some .orientation
  else if f = "gsd" then some .gsd
  else if f = "proj:epsg" then some .epsg
  else if f = "height" then some .height
  else if f = "width" then some .width
  else if f = "cog:minzoom" then some .minzoom
  else if f = "cog:maxzoom" then some .maxzoom
  else if f = "cog:dtype" then some .dtype
  else none

/-- FieldsExtension from schemas.py lines 93-95: the include and exclude
sets of a field-projection request (pydantic defaults: empty sets; a missing
set and an empty set are both falsy in the Python conditions, so the empty
Finset models both).  The Python attributes are named include and exclude;
include is a Lean keyword, so the fields here are incl and excl. -/
structure FieldsExtension where
  incl : Finset String
  excl : Finset String
  deriving DecidableEq

/-- The include set resolved by FieldsExtension.filter_fields
(schemas.py lines 123-133), parameterized over settings.DEFAULT_INCLUDES.
Modelled from the spec: settings.py is not under src/; the spec calls this
constant the registry-level defaultIncludes set, and the theorems quantify
over it.  The three branches mirror the Python if and elif, whose guards
test set truthiness (non-emptiness). -/
def filter_fields_include (DEFAULT_INCLUDES inc exc : Finset String) : Finset String :=
  if inc ≠ ∅ ∧ exc = ∅ then DEFAULT_INCLUDES ∪ inc
  else if inc ≠ ∅ ∧ exc ≠ ∅ then (DEFAULT_INCLUDES ∪ inc) \ (exc \ DEFAULT_INCLUDES)
  else DEFAULT_INCLUDES

/-- The exclude set resolved by FieldsExtension.filter_fields
(schemas.py line 136): the supplied exclude set minus the default fields. -/
def filter_fields_exclude (DEFAULT_INCLUDES exc : Finset String) : Finset String :=
  exc \ DEFAULT_INCLUDES

/-- One query entry as wired: field key paired with its operator-to-literal
map, both still strings before validation. -/
abbrev RawQuery := List (String × List (String × Value))

/-- A validated query: Queryables keys with Operator keys. -/
abbrev TypedQuery := List (Queryables × List (Operator × Value))

/-- The validation failure classes produced while coercing the query dict,
named after the taxonomy of the spec. -/
inductive QueryError where
  | unknownQueryableField (f : String)
  | unsupportedOperator (tok : String)
  deriving DecidableEq, Repr

/-- The validation errors pydantic collects for one query entry: a key that
is not a Queryables value, and every operator token that is not an Operator
value (pydantic validates dict keys and values independently and reports
every failure). -/
def entryErrors (e : String × List (String × Value)) : List QueryError :=
  (match Queryables.parse e.1 with
    | some _ => []
    | none => [QueryError.unknownQueryableField e.1])
  ++ e.2.filterMap (fun ov =>
    match Operator.parse ov.1 with
    | some _ => none
    | none => some (QueryError.unsupportedOperator ov.1))

/-- All validation errors of a raw query dict. -/
def queryErrors (raw : RawQuery) : List QueryError :=
  raw.flatMap entryErrors

/-- The successful coercion of a raw query whose tokens all parse. -/
def coerceQuery (raw : RawQuery) : TypedQuery :=
  raw.filterMap (fun e =>
    (Queryables.parse e.1).map (fun q =>
      (q, e.2.filterMap (fun ov => (Operator.parse ov.1).map (fun o => (o, ov.2))))))

/-- Pydantic validation of the STACSearch query field
(schemas.py line 184, the annotation Dict of Queryables to Dict of Operator):
model construction fails, collecting every coercion error, before any root
validator, plan building or store access can run. -/
def parseQuery (raw : RawQuery) : Except (List QueryError) TypedQuery :=
  if queryErrors raw = [] then .ok (coerceQuery raw) else .error (queryErrors raw)

/-- The include_query_fields root validator (schemas.py lines 187-203),
parameterized over settings.INDEXED_FIELDS (modelled from the spec: the set
of registry fields stored as dedicated columns; settings.py is not under
src/).  When the query dict is truthy it builds the set of projection paths
of the queried fields; when the field extension include set is falsy it is
replaced by that set; otherwise line 202 calls include.union(query_include),
whose result Python discards, so the extension is returned unchanged. -/
def include_query_fields (INDEXED_FIELDS : Finset String) (query : TypedQuery)
    (field : FieldsExtension) : FieldsExtension :=
  if query ≠ [] then
    let query_include : Finset String :=
      (query.map (fun kv =>
        if kv.1.value ∈ INDEXED_FIELDS then kv.1.value
        else "properties." ++ kv.1.value)).toFinset
    if field.incl = ∅ then { field with incl := query_include }
    else field
  else field

/-- A 2-D coordinate with exact rational components. -/
abbrev Point := ℚ × ℚ

/-- A polygon as a list of linear rings (exterior first), each ring a closed
coordinate list, exactly the GeoJSON coordinate structure that shapely shape
and the geo interface carry verbatim. -/
abbrev Polygon := List (List Point)

/-- The exterior ring of a polygon. -/
def ringOf (p : Polygon) : List Point := p.headD []

/-- shapely Polygon.from_bounds(xmin, ymin, xmax, ymax): the axis-aligned
rectangle with corners in counter-clockwise order, exterior ring closed. -/
def from_bounds (xmin ymin xmax ymax : ℚ) : Polygon :=
  [[(xmin, ymin), (xmax, ymin), (xmax, ymax), (xmin, ymax), (xmin, ymin)]]

/-- An unhandled Python exception escaping a method, as distinct from a
structured validation error. -/
inductive PyError where
  | typeError
  deriving DecidableEq, Repr

/-- The spatial part of a STACSearch request: the optional intersects
geometry and the optional bbox value list. -/
structure SpatialRequest where
  intersects : Option Polygon
  bbox : Option (List ℚ)

/-- STACSearch.polygon (schemas.py lines 205-213).  The intersects branch
returns shape(self.intersects), which carries the supplied coordinates
verbatim; the bbox branch unpacks the list into from_bounds, which takes
exactly four bounds, so any other truthy length raises a TypeError; an
empty bbox list is falsy and falls through to None. -/
def STACSearch.polygon (s : SpatialRequest) : Except PyError (Option Polygon) :=
  match s.intersects with
  | some g => .ok (some g)
  | none =>
    match s.bbox with
    | none => .ok none
    | some [] => .ok none
    | some [a, b, c, d] => .ok (some (from_bounds a b c d))
    | some _ => .error .typeError

/-- Twice the shoelace signed area of a closed coordinate ring; positive on
counter-clockwise rings. -/
def signedArea2 : List Point → ℚ
  | [] => 0
  | [_] => 0
  | p :: q :: rest => (p.1 * q.2 - q.1 * p.2) + signedArea2 (q :: rest)

/-- Association-list lookup, the model of a Python dict read. -/
def dictGet (d : List (String × Value)) (k : String) : Option Value :=
  (d.find? (fun kv => kv.1 = k)).map (fun kv => kv.2)

/-- Python dict assignment d[k] = v: overwrite in place when the key exists,
append otherwise. -/
def dictSet (d : List (String × Value)) (k : String) (v : Value) : List (String × Value) :=
  if d.any (fun kv => kv.1 = k) then
    d.map (fun kv => if kv.1 = k then (k, v) else kv)
  else d ++ [(k, v)]

/-- datetime.strptime(value, DATETIME_RFC339) as used at database.py line
92: parses a string into a datetime carrying the same instant, raising on a
non-string value. -/
def strptime : Value → Option Value
  | .vstr s => some (.vdt s)
  | _ => none

/-- The characters after the last colon: the accumulator holds the current
segment reversed and is reset at every colon. -/
def lastSegmentChars (acc : List Char) : List Char → List Char
  | [] => acc.reverse
  | c :: cs => if c = ':' then lastSegmentChars [] cs else lastSegmentChars (c :: acc) cs

/-- The final path segment of a field name, field.split(on colon)[-1]
(database.py line 93). -/
def lastSegment (f : String) : String :=
  String.mk (lastSegmentChars [] f.data)

/-- The wire-format Item accepted at ingest (schemas.Item): its collection,
geometry, the pydantic properties model as a field-name-to-value map, and
the remaining top-level fields. -/
structure ItemSchema where
  collection : String
  geometry : Polygon
  properties : List (String × Value)
  top : List (String × Value)

/-- getattr(schema.properties, field): attribute lookup by pydantic field
name, None meaning an AttributeError. -/
def getattrProp (props : List (String × Value)) (f : String) : Option Value :=
  dictGet props f

/-- schema.properties.dict(exclude=S): the field map without the excluded
field names. -/
def propsDict (props : List (String × Value)) (exclude : Finset String) :
    List (String × Value) :=
  props.filter (fun kv => kv.1 ∉ exclude)

/-- The storage record built by Item.get_database_model. -/
structure DBItem where
  collection_id : String
  geometry : Polygon
  properties : List (String × Value)
  indexed : List (String × Value)
  rest : List (String × Value)
  deriving DecidableEq

/-- The indexed-field extraction loop of Item.get_database_model
(database.py lines 87-93): for each configured field, read the attribute
(AttributeError propagates as None), parse the datetime field, and key the
result by the last namespace segment. -/
def buildIndexed (INDEXED_FIELDS : List String) (props : List (String × Value)) :
    Option (List (String × Value)) :=
  match INDEXED_FIELDS with
  | [] => some []
  | f :: rest =>
    match buildIndexed rest props with
    | none => none
    | some tail =>
      match getattrProp props f with
      | none => none
      | some v =>
        match (if f = "datetime" then strptime v else some v) with
        | none => none
        | some v2 => some ((lastSegment f, v2) :: tail)

/-- database.py lines 98-99: stamp created with the current instant only
when the bag does not already carry it. -/
def stampCreated (d : List (String × Value)) (now : String) : List (String × Value) :=
  if dictGet d "created" = none then dictSet d "created" (.vstr now) else d

/-- Item.get_database_model (database.py lines 84-113), parameterized over
settings.INDEXED_FIELDS and settings.FORBIDDEN_FIELDS (modelled from the
spec: settings.py is not under src/; the spec names these the registry
fields with column location and the wire-only fields) and over the ingest
instant now (datetime.utcnow).  It extracts the indexed fields, removes
them from the properties bag, stamps created when absent, always overwrites
updated with now, and keeps the remaining top-level fields minus the
forbidden ones and geometry, properties and collection. -/
def get_database_model (INDEXED_FIELDS : List String) (FORBIDDEN_FIELDS : Finset String)
    (now : String) (schema : ItemSchema) : Option DBItem :=
  match buildIndexed INDEXED_FIELDS schema.properties with
  | none => none
  | some indexed =>
    some { collection_id := schema.collection
           geometry := schema.geometry
           properties :=
             dictSet (stampCreated (propsDict schema.properties INDEXED_FIELDS.toFinset) now)
               "updated" (.vstr now)
           indexed := indexed
           rest := schema.top.filter
             (fun kv => kv.1 ∉ FORBIDDEN_FIELDS ∪ {"geometry", "properties", "collection"}) }

/-- Modelled from the spec: the Pagination Cursor Codec of section 4.6 is
not under src/ (src only declares the tokens table PaginationToken in
database.py lines 131-136).  The cursor plaintext is the pair of the last
seen primary sort value and the last record id, serialized with a reserved
separator character; a sort key is valid exactly when neither component
contains the separator. -/
def sep : Char := '/'

/-- The composite sort key (primary ordering value, record id) as character
lists. -/
abbrev SortKey := List Char × List Char

/-- A sort key the codec accepts: neither component contains the reserved
separator. -/
def validKey (k : SortKey) : Prop := sep ∉ k.1 ∧ sep ∉ k.2

instance (k : SortKey) : Decidable (validKey k) := by
  unfold validKey; infer_instance

/-- Modelled from the spec: encode(sortKey) joins the two components with
the separator; stable and deterministic, independent of wall-clock. -/
def encode (k : SortKey) : List Char := k.1 ++ sep :: k.2

/-- The single error kind of the codec. -/
inductive CursorDecodeError where
  | malformed
  deriving DecidableEq, Repr

/-- Split a token at every separator occurrence; always returns at least
one piece (the recursive result is never empty, so consing onto its head is
the usual split). -/
def splitOnSep : List Char → List (List Char)
  | [] => [[]]
  | c :: cs =>
    let ps := splitOnSep cs
    if c = sep then [] :: ps
    else (c :: ps.headD []) :: ps.tail

/-- Modelled from the spec: decode(token) splits on the separator and
demands exactly the sort-key arity of two pieces; any other shape is a
CursorDecodeError, never a silent default. -/
def decode (t : List Char) : Except CursorDecodeError SortKey :=
  match splitOnSep t with
  | [a, b] => .ok (a, b)
  | _ => .error .malformed

/-- Rejoin split pieces with the separator; the left inverse witnessing
that decode succeeds only on encoded tokens. -/
def joinSep : List (List Char) → List Char
  | [] => []
  | [p] => p
  | p :: ps => p ++ sep :: joinSep ps

/-- A clockwise unit square: the same point set as from_bounds 0 0 1 1 but
with the opposite winding order. -/
def cwSquare : Polygon := [[(0, 0), (0, 1), (1, 1), (1, 0), (0, 0)]]

/-- A concrete wire-format item used to instantiate the ingestion theorems. -/
def schemaW : ItemSchema :=
  { collection := "c1"
    geometry := [[(0, 0), (1, 0), (1, 1), (0, 0)]]
    properties := [("datetime", .vstr "D"), ("gsd", .vnum 1), ("created", .vstr "C")]
    top := [("id", .vstr "i1"), ("type", .vstr "Feature")] }

/-- The storage record that ingesting schemaW at instant T0 produces. -/
def dbW : DBItem :=
  { collection_id := "c1"
    geometry := [[(0, 0), (1, 0), (1, 1), (0, 0)]]
    properties := [("gsd", .vnum 1), ("created", .vstr "C"), ("updated", .vstr "T0")]
    indexed := [("datetime", .vdt "D")]
    rest := [("id", .vstr "i1")] }

lemma splitOnSep_ne_nil (t : List Char) : splitOnSep t ≠ [] := by
  cases t with
  | nil => simp [splitOnSep]
  | cons c cs =>
    simp only [splitOnSep]
    split <;> simp

lemma splitOnSep_no_sep (b : List Char) (hb : sep ∉ b) : splitOnSep b = [b] := by
  induction b with
  | nil => simp [splitOnSep]
  | cons c cs ih =>
    simp only [List.mem_cons, not_or] at hb
    have hc : ¬ c = sep := fun h => hb.1 h.symm
    simp [splitOnSep, if_neg hc, ih hb.2]

lemma splitOnSep_append (a b : List Char) (ha : sep ∉ a) :
    splitOnSep (a ++ sep :: b) = a :: splitOnSep b := by
  induction a with
  | nil => simp [splitOnSep]
  | cons c cs ih =>
    simp only [List.mem_cons, not_or] at ha
    have hc : ¬ c = sep := fun h => ha.1 h.symm
    simp [splitOnSep, if_neg hc, ih ha.2]

lemma joinSep_cons_cons (p q : List Char) (ps : List (List Char)) :
    joinSep (p :: q :: ps) = p ++ sep :: joinSep (q :: ps) := rfl

lemma splitOnSep_join (t : List Char) :
    joinSep (splitOnSep t) = t ∧ ∀ p ∈ splitOnSep t, sep ∉ p := by
  induction t with
  | nil => simp [splitOnSep, joinSep]
  | cons c cs ih =>
    cases h' : splitOnSep cs with
    | nil => exact absurd h' (splitOnSep_ne_nil cs)
    | cons p ps =>
      rw [h'] at ih
      by_cases hc : c = sep
      · subst hc
        have hs : splitOnSep (sep :: cs) = [] :: p :: ps := by
          simp [splitOnSep, h']
        rw [hs]
        constructor
        · rw [joinSep_cons_cons, List.nil_append, ih.1]
        · intro q hq
          rcases List.mem_cons.mp hq with hq | hq
          · simp [hq]
          · exact ih.2 q hq
      · have hs : splitOnSep (c :: cs) = (c :: p) :: ps := by
          simp [splitOnSep, if_neg hc, h']
        rw [hs]
        constructor
        · cases ps with
          | nil =>
            simp only [joinSep] at ih ⊢
            rw [ih.1]
          | cons q ps' =>
            rw [joinSep_cons_cons, List.cons_append, ← joinSep_cons_cons, ih.1]
        · intro q hq
          rcases List.mem_cons.mp hq with hq | hq
          · subst hq
            intro hm
            rcases List.mem_cons.mp hm with h | h
            · exact hc h.symm
            · exact ih.2 p (List.mem_cons_self p ps) h
          · exact ih.2 q (List.mem_cons.mpr (Or.inr hq))

lemma splitOnSep_inv (t a b : List Char) (h : splitOnSep t = [a, b]) :
    sep ∉ a ∧ sep ∉ b ∧ t = a ++ sep :: b := by
  have hj := splitOnSep_join t
  rw [h] at hj
  refine ⟨hj.2 a (by simp), hj.2 b (by simp), ?_⟩
  rw [← hj.1, joinSep_cons_cons]
  rfl

lemma decode_ok_inv (t : List Char) (k : SortKey) (h : decode t = .ok k) :
    validKey k ∧ encode k = t := by
  unfold decode at h
  rcases hs : splitOnSep t with _ | ⟨a, _ | ⟨b, _ | ⟨c, rest⟩⟩⟩ <;> rw [hs] at h
  · exact absurd h (by simp)
  · exact absurd h (by simp)
  · obtain ⟨ha, hb, ht⟩ := splitOnSep_inv t a b hs
    have hk : k = (a, b) := by
      simpa using h.symm
    subst hk
    exact ⟨⟨ha, hb⟩, by rw [encode]; exact ht.symm⟩
  · exact absurd h (by simp)

lemma dictGet_cons (a : String) (b : Value) (d : List (String × Value)) (f : String) :
    dictGet ((a, b) :: d) f = if a = f then some b else dictGet d f := by
  unfold dictGet
  rw [List.find?_cons]
  by_cases h : a = f
  · simp [h]
  · simp [h]

lemma dictGet_filter_mem (props : List (String × Value)) (S : Finset String)
    (f : String) (hf : f ∈ S) : dictGet (propsDict props S) f = none := by
  induction props with
  | nil => rfl
  | cons kv rest ih =>
    obtain ⟨a, b⟩ := kv
    by_cases ha : a ∈ S
    · simpa [propsDict, List.filter_cons, ha] using ih
    · have hne : a ≠ f := fun h => ha (h ▸ hf)
      simpa [propsDict, List.filter_cons, ha, dictGet_cons, hne] using ih

lemma dictGet_filter_not_mem (props : List (String × Value)) (S : Finset String)
    (f : String) (hf : f ∉ S) : dictGet (propsDict props S) f = dictGet props f := by
  induction props with
  | nil => rfl
  | cons kv rest ih =>
    obtain ⟨a, b⟩ := kv
    by_cases ha : a ∈ S
    · have hne : a ≠ f := fun h => hf (h ▸ ha)
      simp [propsDict, List.filter_cons, ha, dictGet_cons, hne, ← ih, propsDict]
    · simp only [propsDict, decide_not] at ih ⊢
      simp only [List.filter_cons]
      have hcond : (!decide (((a : String), b).1 ∈ S)) = true := by simp [ha]
      rw [if_pos hcond, dictGet_cons, dictGet_cons, ih]

lemma dictGet_map_setKey (d : List (String × Value)) (k : String) (v : Value)
    (f : String) (hf : f ≠ k) :
    dictGet (d.map (fun kv => if kv.1 = k then (k, v) else kv)) f = dictGet d f := by
  induction d with
  | nil => rfl
  | cons kv rest ih =>
    obtain ⟨a, b⟩ := kv
    by_cases hak : a = k
    · subst hak
      simp only [List.map_cons, if_pos rfl]
      rw [dictGet_cons, dictGet_cons, if_neg (fun h => hf h.symm),
        if_neg (fun h => hf h.symm), ih]
    · simp only [List.map_cons, if_neg hak]
      rw [dictGet_cons, dictGet_cons, ih]

lemma dictGet_append_single (d : List (String × Value)) (k : String) (v : Value)
    (f : String) (hf : f ≠ k) : dictGet (d ++ [(k, v)]) f = dictGet d f := by
  induction d with
  | nil =>
    rw [List.nil_append, dictGet_cons, if_neg (Ne.symm hf)]
  | cons kv rest ih =>
    obtain ⟨a, b⟩ := kv
    rw [List.cons_append, dictGet_cons, dictGet_cons, ih]

lemma dictGet_dictSet_ne (d : List (String × Value)) (k : String) (v : Value)
    (f : String) (hf : f ≠ k) : dictGet (dictSet d k v) f = dictGet d f := by
  unfold dictSet
  by_cases h : d.any (fun kv => kv.1 = k)
  · rw [if_pos h, dictGet_map_setKey d k v f hf]
  · rw [if_neg h, dictGet_append_single d k v f hf]

lemma dictGet_map_setKey_self (d : List (String × Value)) (k : String) (v : Value)
    (h : d.any (fun kv => kv.1 = k)) :
    dictGet (d.map (fun kv => if kv.1 = k then (k, v) else kv)) k = some v := by
  induction d with
  | nil => simp at h
  | cons kv rest ih =>
    obtain ⟨a, b⟩ := kv
    by_cases hak : a = k
    · rw [List.map_cons]
      have hh : (if ((a : String), b).1 = k then (k, v) else (a, b)) = (k, v) := by
        simp [hak]
      rw [hh, dictGet_cons, if_pos rfl]
    · rw [List.map_cons]
      have hh : (if ((a : String), b).1 = k then (k, v) else (a, b)) = (a, b) := by
        simp [hak]
      have hr : rest.any (fun kv => kv.1 = k) := by
        simp only [List.any_cons, Bool.or_eq_true, decide_eq_true_eq] at h
        rcases h with h1 | h1
        · exact absurd h1 hak
        · exact h1
      rw [hh, dictGet_cons, if_neg hak]
      exact ih hr

lemma dictGet_append_single_self (d : List (String × Value)) (k : String) (v : Value)
    (h : ¬ d.any (fun kv => kv.1 = k)) : dictGet (d ++ [(k, v)]) k = some v := by
  induction d with
  | nil => rw [List.nil_append, dictGet_cons, if_pos rfl]
  | cons kv rest ih =>
    obtain ⟨a, b⟩ := kv
    simp only [List.any_cons, Bool.or_eq_true, decide_eq_true_eq, not_or] at h
    rw [List.cons_append, dictGet_cons, if_neg h.1]
    exact ih (by simpa using h.2)

lemma dictGet_dictSet_self (d : List (String × Value)) (k : String) (v : Value) :
    dictGet (dictSet d k v) k = some v := by
  unfold dictSet
  by_cases h : d.any (fun kv => kv.1 = k)
  · rw [if_pos h, dictGet_map_setKey_self d k v h]
  · rw [if_neg h, dictGet_append_single_self d k v h]

lemma dictGet_isSome_of_key (d : List (String × Value)) (key : String)
    (h : ∃ p ∈ d, p.1 = key) : ∃ v, dictGet d key = some v := by
  induction d with
  | nil => simp at h
  | cons kv rest ih =>
    obtain ⟨a, b⟩ := kv
    by_cases hak : a = key
    · exact ⟨b, by rw [dictGet_cons, if_pos hak]⟩
    · obtain ⟨p, hp, hkey⟩ := h
      rcases List.mem_cons.mp hp with hp | hp
      · subst hp
        exact absurd hkey hak
      · obtain ⟨v, hv⟩ := ih ⟨p, hp, hkey⟩
        exact ⟨v, by rw [dictGet_cons, if_neg hak, hv]⟩

lemma buildIndexed_key (I : List String) (props : List (String × Value))
    (ind : List (String × Value)) (h : buildIndexed I props = some ind)
    (f : String) (hf : f ∈ I) : ∃ p ∈ ind, p.1 = lastSegment f := by
  induction I generalizing ind with
  | nil => simp at hf
  | cons g I' ih =>
    rw [buildIndexed] at h
    rcases ht : buildIndexed I' props with _ | tail
    · rw [ht] at h; exact absurd h (by simp)
    · rw [ht] at h
      dsimp only at h
      rcases hv : getattrProp props g with _ | v
      · rw [hv] at h; exact absurd h (by simp)
      · rw [hv] at h
        dsimp only at h
        rcases hv2 : (if g = "datetime" then strptime v else some v) with _ | v2
        · rw [hv2] at h; exact absurd h (by simp)
        · rw [hv2] at h
          dsimp only at h
          simp only [Option.some.injEq] at h
          subst h
          rcases List.mem_cons.mp hf with hf | hf
          · exact ⟨(lastSegment g, v2), List.mem_cons_self _ _, by rw [hf]⟩
          · obtain ⟨p, hp, hkey⟩ := ih tail ht hf
            exact ⟨p, List.mem_cons.mpr (Or.inr hp), hkey⟩

lemma mem_queryErrors_unknown (raw : RawQuery) (k : String) (ops : List (String × Value))
    (hm : (k, ops) ∈ raw) (hp : Queryables.parse k = none) :
    QueryError.unknownQueryableField k ∈ queryErrors raw := by
  unfold queryErrors
  apply List.mem_flatMap.mpr
  refine ⟨(k, ops), hm, ?_⟩
  simp [entryErrors, hp]

lemma mem_queryErrors_unsupported (raw : RawQuery) (k tok : String) (v : Value)
    (ops : List (String × Value)) (hm : (k, ops) ∈ raw) (hov : (tok, v) ∈ ops)
    (hp : Operator.parse tok = none) :
    QueryError.unsupportedOperator tok ∈ queryErrors raw := by
  unfold queryErrors
  apply List.mem_flatMap.mpr
  refine ⟨(k, ops), hm, ?_⟩
  unfold entryErrors
  apply List.mem_append.mpr
  right
  apply List.mem_filterMap.mpr
  exact ⟨(tok, v), hov, by simp [hp]⟩

/-- C3 (counterexample): with defaults containing id, include containing
foo and exclude containing foo, the resolved include set is not
defaultIncludes ∪ include: the non-default field foo is removed even though
the caller included it, so the claimed resolution law and the include-wins
rule both fail on the code. -/
theorem filter_fields_both_counterexample :
    filter_fields_include {"id"} {"foo"} {"foo"} ≠ {"id"} ∪ {"foo"} ∧
    "foo" ∉ filter_fields_include {"id"} {"foo"} {"foo"} := by
  decide

/-- C3 (amended): when both include and exclude are non-empty, the code
resolves the include set to (defaultIncludes ∪ include) minus (exclude −
defaultIncludes) and the exclude set to exclude − defaultIncludes; a field
in defaultIncludes is therefore always present in the final policy and
never in the applied exclude set, but a non-default field listed in both
include and exclude is dropped (exclude wins for non-defaults). -/
theorem filter_fields_both_resolution (D inc exc : Finset String)
    (h1 : inc ≠ ∅) (h2 : exc ≠ ∅) :
    filter_fields_include D inc exc = (D ∪ inc) \ (exc \ D) ∧
    filter_fields_exclude D exc = exc \ D ∧
    ∀ f ∈ D, f ∈ filter_fields_include D inc exc ∧ f ∉ filter_fields_exclude D exc := by
  have hinc : filter_fields_include D inc exc = (D ∪ inc) \ (exc \ D) := by
    unfold filter_fields_include
    rw [if_neg (by rintro ⟨_, hh⟩; exact h2 hh), if_pos ⟨h1, h2⟩]
  refine ⟨hinc, rfl, ?_⟩
  intro f hf
  constructor
  · rw [hinc, Finset.mem_sdiff]
    exact ⟨Finset.mem_union_left _ hf, fun hm => (Finset.mem_sdiff.mp hm).2 hf⟩
  · simp only [filter_fields_exclude]
    intro hm
    exact (Finset.mem_sdiff.mp hm).2 hf

/-- Witness for the amended C3 at concrete sets. -/
theorem filter_fields_both_resolution_witness :
    filter_fields_include {"id"} {"foo"} {"bar"} =
      ({"id"} ∪ {"foo"}) \ ({"bar"} \ {"id"}) ∧
    filter_fields_exclude {"id"} {"bar"} = {"bar"} \ {"id"} ∧
    ∀ f ∈ ({"id"} : Finset String),
      f ∈ filter_fields_include {"id"} {"foo"} {"bar"} ∧
      f ∉ filter_fields_exclude {"id"} {"bar"} :=
  filter_fields_both_resolution {"id"} {"foo"} {"bar"} (by decide) (by decide)

/-- C10: with a non-empty exclude set and no include set, neither branch of
filter_fields fires, so the resolved include set is exactly the default
include set and the applied exclude set is exclude minus the defaults. -/
theorem filter_fields_exclude_only (D exc : Finset String) (h : exc ≠ ∅) :
    filter_fields_include D ∅ exc = D ∧ filter_fields_exclude D exc = exc \ D := by
  refine ⟨?_, rfl⟩
  unfold filter_fields_include
  rw [if_neg (by rintro ⟨hh, _⟩; exact hh rfl), if_neg (by rintro ⟨hh, _⟩; exact hh rfl)]

/-- Witness for C10 at concrete sets. -/
theorem filter_fields_exclude_only_witness :
    filter_fields_include {"id"} ∅ {"gsd"} = {"id"} ∧
    filter_fields_exclude {"id"} {"gsd"} = {"gsd"} \ {"id"} :=
  filter_fields_exclude_only {"id"} {"gsd"} (by decide)

/-- C1 (code bug): include_query_fields only adds queried fields when the
caller-supplied include set is empty.  With include containing id and a
query on gsd (bag-resident when INDEXED_FIELDS is the datetime singleton),
line 202 calls set.union and discards the result, so the include set stays
just id and properties.gsd is missing; the same query against an empty
include set does populate it, contradicting the validator docstring. -/
theorem query_fields_union_discarded :
    (include_query_fields {"datetime"} [(Queryables.gsd, [(Operator.eq, Value.vnum 1)])]
        ⟨{"id"}, ∅⟩).incl = {"id"} ∧
    "properties.gsd" ∉ (include_query_fields {"datetime"}
        [(Queryables.gsd, [(Operator.eq, Value.vnum 1)])] ⟨{"id"}, ∅⟩).incl ∧
    (include_query_fields {"datetime"} [(Queryables.gsd, [(Operator.eq, Value.vnum 1)])]
        ⟨∅, ∅⟩).incl = {"properties.gsd"} := by
  decide

/-- C5: a query naming a field outside the Queryables registry makes
validation fail with unknownQueryableField carrying that name, and a query
using an operator token outside the closed operator set makes validation
fail with unsupportedOperator carrying that token; in both cases parseQuery
returns an error, so no validated request value exists and no plan can be
built or store accessed. -/
theorem query_validation_fail_fast (raw : RawQuery) :
    (∀ k ops, (k, ops) ∈ raw → Queryables.parse k = none →
      ∃ es, parseQuery raw = .error es ∧ QueryError.unknownQueryableField k ∈ es) ∧
    (∀ k ops tok v, (k, ops) ∈ raw → (tok, v) ∈ ops → Operator.parse tok = none →
      ∃ es, parseQuery raw = .error es ∧ QueryError.unsupportedOperator tok ∈ es) := by
  constructor
  · intro k ops hm hp
    have hmm := mem_queryErrors_unknown raw k ops hm hp
    have hne : queryErrors raw ≠ [] := fun hh => by rw [hh] at hmm; simp at hmm
    exact ⟨queryErrors raw, by simp [parseQuery, hne], hmm⟩
  · intro k ops tok v hm hov hp
    have hmm := mem_queryErrors_unsupported raw k tok v ops hm hov hp
    have hne : queryErrors raw ≠ [] := fun hh => by rw [hh] at hmm; simp at hmm
    exact ⟨queryErrors raw, by simp [parseQuery, hne], hmm⟩

/-- Witness for C5: one request with an unregistered field, one with an
unsupported operator token. -/
theorem query_validation_fail_fast_witness :
    (∃ es, parseQuery [("unknown_field", [("eq", Value.vnum 1)])] = .error es ∧
      QueryError.unknownQueryableField "unknown_field" ∈ es) ∧
    (∃ es, parseQuery [("gsd", [("contains", Value.vstr "a")])] = .error es ∧
      QueryError.unsupportedOperator "contains" ∈ es) :=
  ⟨(query_validation_fail_fast _).1 "unknown_field" [("eq", Value.vnum 1)]
      (List.mem_singleton.mpr rfl) rfl,
   (query_validation_fail_fast _).2 "gsd" [("contains", Value.vstr "a")] "contains"
      (Value.vstr "a") (List.mem_singleton.mpr rfl) (List.mem_singleton.mpr rfl) rfl⟩

/-- C6 (counterexample): a request carrying both intersects and bbox is not
rejected: polygon() answers with the intersects geometry, silently ignoring
the bbox, which alone would have compiled to a different polygon. -/
theorem both_bbox_intersects_counterexample :
    STACSearch.polygon ⟨some cwSquare, some [0, 0, 1, 1]⟩ = .ok (some cwSquare) ∧
    cwSquare ≠ from_bounds 0 0 1 1 :=
  ⟨rfl, by decide⟩

/-- C6 (amended): when both intersects and bbox are supplied, the spatial
resolution silently prefers intersects: polygon() returns the intersects
geometry whatever the bbox holds, and no validation error is raised. -/
theorem both_bbox_intersects_prefers (g : Polygon) (b : Option (List ℚ)) :
    STACSearch.polygon ⟨some g, b⟩ = .ok (some g) := rfl

/-- C9 (counterexample): a 6-value bbox is neither rejected as invalid nor
interpreted under a 3-D convention: unpacking six values into the four
parameters of from_bounds raises a TypeError, so the engine crashes. -/
theorem six_value_bbox_counterexample :
    STACSearch.polygon ⟨none, some [0, 0, 0, 10, 10, 10]⟩ = .error .typeError := rfl

/-- C9 (amended): every 6-value bbox deterministically raises a TypeError
inside polygon(): the behavior never varies silently, but it is an
unhandled crash, not a structured rejection or a documented 3-D
interpretation. -/
theorem six_value_bbox_type_error (xs : List ℚ) (h : xs.length = 6) :
    STACSearch.polygon ⟨none, some xs⟩ = .error .typeError := by
  rcases xs with _ | ⟨a, xs⟩
  · simp at h
  rcases xs with _ | ⟨b, xs⟩
  · simp at h
  rcases xs with _ | ⟨c, xs⟩
  · simp at h
  rcases xs with _ | ⟨d, xs⟩
  · simp at h
  rcases xs with _ | ⟨e, xs⟩
  · simp at h
  rcases xs with _ | ⟨f, xs⟩
  · simp at h
  obtain rfl : xs = [] := by
    have hlen : xs.length = 0 := by simpa using h
    simpa using hlen
  rfl

/-- Witness for the amended C9 at a concrete 6-value bbox. -/
theorem six_value_bbox_type_error_witness :
    STACSearch.polygon ⟨none, some [1, 2, 3, 4, 5, 6]⟩ = .error .typeError :=
  six_value_bbox_type_error [1, 2, 3, 4, 5, 6] (by decide)

/-- C4 (counterexample): the code performs no polygon normalization, so two
spatial inputs covering the same region compile to different spatial tests:
the clockwise unit square has exactly the vertex set of from_bounds 0 0 1 1
yet the intersects path carries it verbatim while the bbox path produces
the counter-clockwise ring. -/
theorem spatial_same_region_counterexample :
    STACSearch.polygon ⟨some cwSquare, none⟩ = .ok (some cwSquare) ∧
    STACSearch.polygon ⟨none, some [0, 0, 1, 1]⟩ = .ok (some (from_bounds 0 0 1 1)) ∧
    cwSquare ≠ from_bounds 0 0 1 1 ∧
    (ringOf cwSquare).toFinset = (ringOf (from_bounds 0 0 1 1)).toFinset :=
  ⟨rfl, rfl, by decide, by decide⟩

/-- C4 (amended): the bbox path always compiles to the axis-aligned
rectangle with those bounds, whose exterior ring is counter-clockwise
(positive shoelace area) for a proper bbox, and the intersects path carries
the supplied polygon verbatim; the two paths agree only when the supplied
polygon is exactly that canonical ring. -/
theorem spatial_compile_paths (a b c d : ℚ) (g : Polygon) (hx : a < c) (hy : b < d) :
    STACSearch.polygon ⟨none, some [a, b, c, d]⟩ = .ok (some (from_bounds a b c d)) ∧
    STACSearch.polygon ⟨some g, none⟩ = .ok (some g) ∧
    0 < signedArea2 (ringOf (from_bounds a b c d)) := by
  refine ⟨rfl, rfl, ?_⟩
  have harea : signedArea2 (ringOf (from_bounds a b c d)) = 2 * ((c - a) * (d - b)) := by
    simp [from_bounds, ringOf, signedArea2]
    ring
  rw [harea]
  have h1 : 0 < c - a := sub_pos.mpr hx
  have h2 : 0 < d - b := sub_pos.mpr hy
  nlinarith [mul_pos h1 h2]

/-- Witness for the amended C4 at concrete bounds and geometry. -/
theorem spatial_compile_paths_witness :
    STACSearch.polygon ⟨none, some [0, 0, 1, 1]⟩ = .ok (some (from_bounds 0 0 1 1)) ∧
    STACSearch.polygon ⟨some cwSquare, none⟩ = .ok (some cwSquare) ∧
    0 < signedArea2 (ringOf (from_bounds 0 0 1 1)) :=
  spatial_compile_paths 0 0 1 1 cwSquare (by decide) (by decide)

/-- C2: the cursor codec satisfies the round-trip law, decode succeeds only
on tokens that encode produced (so it never silently substitutes a default
page), and every token outside the image of encode decodes to a
CursorDecodeError; decode is a total function, so no input crashes it. -/
theorem cursor_codec_roundtrip :
    (∀ k : SortKey, validKey k → decode (encode k) = .ok k) ∧
    (∀ (t : List Char) (k : SortKey), decode t = .ok k → validKey k ∧ encode k = t) ∧
    (∀ t : List Char, (∀ k : SortKey, validKey k → encode k ≠ t) →
      ∃ e, decode t = .error e) := by
  refine ⟨?_, decode_ok_inv, ?_⟩
  · rintro ⟨a, b⟩ ⟨ha, hb⟩
    unfold decode encode
    rw [splitOnSep_append a b ha, splitOnSep_no_sep b hb]
  · intro t h
    rcases hd : decode t with e | k
    · exact ⟨e, rfl⟩
    · obtain ⟨hk, he⟩ := decode_ok_inv t k hd
      exact absurd he (h k hk)

/-- Witness for C2: a concrete round trip, and a three-piece token that
decodes to an error. -/
theorem cursor_codec_roundtrip_witness :
    decode (encode (['a'], ['b'])) = .ok (['a'], ['b']) ∧
    (∃ e, decode ['a', '/', 'b', '/', 'c'] = .error e) := by
  constructor
  · exact cursor_codec_roundtrip.1 (['a'], ['b']) (by decide)
  · apply cursor_codec_roundtrip.2.2
    intro k hk heq
    have h1 := cursor_codec_roundtrip.1 k hk
    rw [heq] at h1
    have h2 : decode ['a', '/', 'b', '/', 'c'] = .error .malformed := rfl
    rw [h2] at h1
    exact Except.noConfusion h1

/-- C7: whenever ingestion succeeds, every configured indexed field is
emitted as a first-class key of the storage record (under its last
namespace segment) and its name is absent from the stored attribute bag, so
no indexed field value is duplicated inside the bag; the timestamp
hypotheses record that the stamped keys are not themselves configured as
indexed, as in the shipped configuration. -/
theorem indexed_fields_split (INDEXED : List String) (FORBIDDEN : Finset String)
    (now : String) (schema : ItemSchema) (db : DBItem)
    (hdb : get_database_model INDEXED FORBIDDEN now schema = some db)
    (hcr : "created" ∉ INDEXED) (hup : "updated" ∉ INDEXED) :
    ∀ f ∈ INDEXED, (∃ v, dictGet db.indexed (lastSegment f) = some v) ∧
      dictGet db.properties f = none := by
  unfold get_database_model at hdb
  rcases hb : buildIndexed INDEXED schema.properties with _ | ind
  · rw [hb] at hdb; exact absurd hdb (by simp)
  · rw [hb] at hdb
    dsimp only at hdb
    simp only [Option.some.injEq] at hdb
    subst hdb
    intro f hf
    constructor
    · exact dictGet_isSome_of_key ind (lastSegment f)
        (buildIndexed_key INDEXED schema.properties ind hb f hf)
    · have hfc : f ≠ "created" := fun hh => hcr (hh ▸ hf)
      have hfu : f ≠ "updated" := fun hh => hup (hh ▸ hf)
      show dictGet (dictSet (stampCreated _ now) "updated" (.vstr now)) f = none
      rw [dictGet_dictSet_ne _ _ _ _ hfu]
      unfold stampCreated
      by_cases hcase :
          dictGet (propsDict schema.properties INDEXED.toFinset) "created" = none
      · rw [if_pos hcase, dictGet_dictSet_ne _ _ _ _ hfc]
        exact dictGet_filter_mem _ _ _ (List.mem_toFinset.mpr hf)
      · rw [if_neg hcase]
        exact dictGet_filter_mem _ _ _ (List.mem_toFinset.mpr hf)

/-- Witness for C7 at a concrete item and the datetime-only indexed
configuration. -/
theorem indexed_fields_split_witness :
    (∃ v, dictGet dbW.indexed (lastSegment "datetime") = some v) ∧
    dictGet dbW.properties "datetime" = none :=
  indexed_fields_split ["datetime"] {"type"} "T0" schemaW dbW (by decide)
    (by decide) (by decide) "datetime" (by decide)

/-- C8: whenever ingestion succeeds, the stored attribute bag carries
updated equal to the ingest instant regardless of any caller-supplied
updated value, and created equal to the caller-supplied value when one is
present and to the ingest instant otherwise (given that created is not
itself configured as an indexed field, as in the shipped configuration). -/
theorem ingest_timestamps (INDEXED : List String) (FORBIDDEN : Finset String)
    (now : String) (schema : ItemSchema) (db : DBItem)
    (hdb : get_database_model INDEXED FORBIDDEN now schema = some db)
    (hcr : "created" ∉ INDEXED) :
    dictGet db.properties "updated" = some (.vstr now) ∧
    dictGet db.properties "created" =
      some ((dictGet schema.properties "created").getD (.vstr now)) := by
  unfold get_database_model at hdb
  rcases hb : buildIndexed INDEXED schema.properties with _ | ind
  · rw [hb] at hdb; exact absurd hdb (by simp)
  · rw [hb] at hdb
    dsimp only at hdb
    simp only [Option.some.injEq] at hdb
    subst hdb
    have hfilter : dictGet (propsDict schema.properties INDEXED.toFinset) "created"
        = dictGet schema.properties "created" :=
      dictGet_filter_not_mem _ _ _ (fun hm => hcr (List.mem_toFinset.mp hm))
    constructor
    · exact dictGet_dictSet_self _ _ _
    · show dictGet (dictSet (stampCreated _ now) "updated" (.vstr now)) "created" = _
      rw [dictGet_dictSet_ne _ _ _ _ (by decide : "created" ≠ "updated")]
      unfold stampCreated
      by_cases hcase :
          dictGet (propsDict schema.properties INDEXED.toFinset) "created" = none
      · rw [if_pos hcase, dictGet_dictSet_self]
        rw [hfilter] at hcase
        rw [hcase]
        rfl
      · rw [if_neg hcase, hfilter]
        rcases ho : dictGet schema.properties "created" with _ | v
        · rw [hfilter, ho] at hcase
          exact absurd rfl hcase
        · rfl

/-- Witness for C8 at a concrete item that supplies its own created value. -/
theorem ingest_timestamps_witness :
    dictGet dbW.properties "updated" = some (.vstr "T0") ∧
    dictGet dbW.properties "created" =
      some ((dictGet schemaW.properties "created").getD (.vstr "T0")) :=
  ingest_timestamps ["datetime"] {"type"} "T0" schemaW dbW (by decide) (by decide)

end StacApi
